import Mathlib

/-!
Verification of the constrained PD gain-synthesis algorithm
(`design_pd_with_limits` in `single_joint_PD_design.py`).

The Python floats are modelled as exact real numbers.  The nullable gain
bounds `kp_max` / `kd_max` become `Option ℝ` (`none` models Python's
`None`).  The time metrics, which the code initialises to `float("inf")`
as an "unbounded" sentinel, become `Option ℝ` with `none` playing the
role of the sentinel.  The early `return None` for `J ≤ 0` makes the
whole function return `Option PDDesignResult`.
-/

/-- Result record mirroring the Python dataclass `PDDesignResult`.
The two time metrics use `none` for the `float("inf")` sentinel. -/
structure PDDesignResult where
  J : ℝ
  f_n_des : ℝ
  zeta_des : ℝ
  kp_max : Option ℝ
  kd_max : Option ℝ
  omega_n_des : ℝ
  kp_des : ℝ
  kd_des : ℝ
  kp_actual : ℝ
  kd_actual : ℝ
  omega_n_actual : ℝ
  f_n_actual : ℝ
  zeta_actual : ℝ
  t_r_actual : Option ℝ
  t_s_actual : Option ℝ

/-- `omega_n_des = 2.0 * math.pi * f_n_des` (source line 49). -/
noncomputable def omega_n_des (f_n_des : ℝ) : ℝ := 2 * Real.pi * f_n_des

/-- `kp_des = J * (omega_n_des ** 2)` (source line 52). -/
noncomputable def kp_des (J f_n_des : ℝ) : ℝ := J * (omega_n_des f_n_des) ^ 2

/-- `kd_des = 2.0 * zeta_des * J * omega_n_des` (source line 53). -/
noncomputable def kd_des (J zeta_des f_n_des : ℝ) : ℝ :=
  2 * zeta_des * J * omega_n_des f_n_des

/-- The candidate frequencies contributed by the Kp bound (source lines
59-62): if `kp_max` is not `None` and `kp_max > 0`, the limit
`sqrt(kp_max / J)` is appended when it is `> 0`. -/
noncomputable def kp_limit_candidates (J : ℝ) (kp_max : Option ℝ) : List ℝ :=
  match kp_max with
  | none => []
  | some k =>
      if 0 < k then
        (if 0 < Real.sqrt (k / J) then [Real.sqrt (k / J)] else [])
      else []

/-- The candidate frequencies contributed by the Kd bound (source lines
65-68): if `kd_max` is not `None`, `kd_max > 0` and `zeta_des > 0`, the
limit `kd_max / (2 * zeta_des * J)` is appended when it is `> 0`. -/
noncomputable def kd_limit_candidates (J zeta_des : ℝ) (kd_max : Option ℝ) : List ℝ :=
  match kd_max with
  | none => []
  | some k =>
      if 0 < k ∧ 0 < zeta_des then
        (if 0 < k / (2 * zeta_des * J) then [k / (2 * zeta_des * J)] else [])
      else []

/-- The full candidate list `omega_n_limits` (source lines 56-68): seeded
with `omega_n_des`, then the Kp and Kd contributions in order. -/
noncomputable def omega_n_limits (J f_n_des zeta_des : ℝ)
    (kp_max kd_max : Option ℝ) : List ℝ :=
  omega_n_des f_n_des ::
    (kp_limit_candidates J kp_max ++ kd_limit_candidates J zeta_des kd_max)

/-- Minimum of a nonempty list given as base element plus tail;
`listMin a l` is Python's `min([a] + l)`. -/
noncomputable def listMin (a : ℝ) (l : List ℝ) : ℝ := l.foldr min a

/-- `omega_n_actual = min(omega_n_limits)` (source line 70). -/
noncomputable def omega_n_actual (J f_n_des zeta_des : ℝ)
    (kp_max kd_max : Option ℝ) : ℝ :=
  listMin (omega_n_des f_n_des)
    (kp_limit_candidates J kp_max ++ kd_limit_candidates J zeta_des kd_max)

/-- `kp_actual = J * (omega_n_actual ** 2)` (source line 73). -/
noncomputable def kp_actual (J f_n_des zeta_des : ℝ)
    (kp_max kd_max : Option ℝ) : ℝ :=
  J * (omega_n_actual J f_n_des zeta_des kp_max kd_max) ^ 2

/-- `kd_actual = 2.0 * zeta_des * J * omega_n_actual` (source line 74). -/
noncomputable def kd_actual (J f_n_des zeta_des : ℝ)
    (kp_max kd_max : Option ℝ) : ℝ :=
  2 * zeta_des * J * omega_n_actual J f_n_des zeta_des kp_max kd_max

/-- `f_n_actual = omega_n_actual / (2.0 * math.pi)` (source line 77). -/
noncomputable def f_n_actual (J f_n_des zeta_des : ℝ)
    (kp_max kd_max : Option ℝ) : ℝ :=
  omega_n_actual J f_n_des zeta_des kp_max kd_max / (2 * Real.pi)

/-- `zeta_actual` (source lines 80-82): `0.0` unless `kp_actual > 0`, in
which case `kd_actual / (2.0 * math.sqrt(J * kp_actual))`. -/
noncomputable def zeta_actual (J f_n_des zeta_des : ℝ)
    (kp_max kd_max : Option ℝ) : ℝ :=
  if 0 < kp_actual J f_n_des zeta_des kp_max kd_max then
    kd_actual J f_n_des zeta_des kp_max kd_max /
      (2 * Real.sqrt (J * kp_actual J f_n_des zeta_des kp_max kd_max))
  else 0

/-- `t_r_actual` (source lines 84-87): the `inf` sentinel (`none`)
unless `omega_n_actual > 0`, in which case `1.8 / omega_n_actual`. -/
noncomputable def t_r_actual (J f_n_des zeta_des : ℝ)
    (kp_max kd_max : Option ℝ) : Option ℝ :=
  if 0 < omega_n_actual J f_n_des zeta_des kp_max kd_max then
    some (1.8 / omega_n_actual J f_n_des zeta_des kp_max kd_max)
  else none

/-- `t_s_actual` (source lines 85-89): the `inf` sentinel (`none`)
unless `omega_n_actual > 0` and then `zeta_actual > 0`, in which case
`4.0 / (zeta_actual * omega_n_actual)`. -/
noncomputable def t_s_actual (J f_n_des zeta_des : ℝ)
    (kp_max kd_max : Option ℝ) : Option ℝ :=
  if 0 < omega_n_actual J f_n_des zeta_des kp_max kd_max then
    (if 0 < zeta_actual J f_n_des zeta_des kp_max kd_max then
      some (4.0 / (zeta_actual J f_n_des zeta_des kp_max kd_max *
        omega_n_actual J f_n_des zeta_des kp_max kd_max))
    else none)
  else none

/-- The record built on the non-error path (source lines 48-107). -/
noncomputable def designCore (J f_n_des zeta_des : ℝ)
    (kp_max kd_max : Option ℝ) : PDDesignResult :=
  { J := J
    f_n_des := f_n_des
    zeta_des := zeta_des
    kp_max := kp_max
    kd_max := kd_max
    omega_n_des := omega_n_des f_n_des
    kp_des := kp_des J f_n_des
    kd_des := kd_des J zeta_des f_n_des
    kp_actual := kp_actual J f_n_des zeta_des kp_max kd_max
    kd_actual := kd_actual J f_n_des zeta_des kp_max kd_max
    omega_n_actual := omega_n_actual J f_n_des zeta_des kp_max kd_max
    f_n_actual := f_n_actual J f_n_des zeta_des kp_max kd_max
    zeta_actual := zeta_actual J f_n_des zeta_des kp_max kd_max
    t_r_actual := t_r_actual J f_n_des zeta_des kp_max kd_max
    t_s_actual := t_s_actual J f_n_des zeta_des kp_max kd_max }

/-- `design_pd_with_limits` (source lines 35-107): `None` when
`J <= 0`, otherwise the computed record. -/
noncomputable def design_pd_with_limits (J f_n_des zeta_des : ℝ)
    (kp_max kd_max : Option ℝ) : Option PDDesignResult :=
  if J ≤ 0 then none else some (designCore J f_n_des zeta_des kp_max kd_max)

/-- The Python signature defaults `kp_max = 500.0`, `kd_max = 5.0`
(source lines 39-40): a call that omits the bounds uses those values. -/
noncomputable def design_pd_with_limits_defaults (J f_n_des zeta_des : ℝ) :
    Option PDDesignResult :=
  design_pd_with_limits J f_n_des zeta_des (some 500) (some 5)

/-! ### Generic facts about `listMin` -/

lemma listMin_nil (a : ℝ) : listMin a [] = a := rfl

lemma listMin_cons (a x : ℝ) (l : List ℝ) :
    listMin a (x :: l) = min x (listMin a l) := rfl

lemma listMin_le_base (a : ℝ) (l : List ℝ) : listMin a l ≤ a := by
  induction l with
  | nil => exact le_rfl
  | cons x t ih => exact le_trans (min_le_right x (listMin a t)) ih

lemma listMin_le_mem (a : ℝ) {x : ℝ} {l : List ℝ} (hx : x ∈ l) :
    listMin a l ≤ x := by
  induction l with
  | nil => cases hx
  | cons y t ih =>
      rcases List.mem_cons.mp hx with h | h
      · rw [listMin_cons, h]; exact min_le_left y (listMin a t)
      · exact le_trans (min_le_right y (listMin a t)) (ih h)

lemma lt_listMin {c a : ℝ} {l : List ℝ} (ha : c < a)
    (h : ∀ x ∈ l, c < x) : c < listMin a l := by
  induction l with
  | nil => exact ha
  | cons y t ih =>
      rw [listMin_cons]
      exact lt_min (h y (List.mem_cons_self y t))
        (ih fun x hx => h x (List.mem_cons_of_mem y hx))

lemma le_listMin {c a : ℝ} {l : List ℝ} (ha : c ≤ a)
    (h : ∀ x ∈ l, c ≤ x) : c ≤ listMin a l := by
  induction l with
  | nil => exact ha
  | cons y t ih =>
      rw [listMin_cons]
      exact le_min (h y (List.mem_cons_self y t))
        (ih fun x hx => h x (List.mem_cons_of_mem y hx))

lemma listMin_eq_base_iff {a : ℝ} {l : List ℝ} :
    listMin a l = a ↔ ∀ x ∈ l, a ≤ x := by
  constructor
  · intro h x hx
    calc a = listMin a l := h.symm
    _ ≤ x := listMin_le_mem a hx
  · intro h
    exact le_antisymm (listMin_le_base a l) (le_listMin le_rfl h)

/-! ### Facts about the candidate lists -/

lemma mem_kp_limit_candidates {J x : ℝ} {kp_max : Option ℝ}
    (hx : x ∈ kp_limit_candidates J kp_max) :
    ∃ k, kp_max = some k ∧ 0 < k ∧ x = Real.sqrt (k / J) := by
  match kp_max with
  | none => cases hx
  | some k =>
      simp only [kp_limit_candidates] at hx
      by_cases hk : 0 < k
      · rw [if_pos hk] at hx
        by_cases hw : 0 < Real.sqrt (k / J)
        · rw [if_pos hw] at hx
          exact ⟨k, rfl, hk, (List.mem_singleton.mp hx)⟩
        · rw [if_neg hw] at hx; cases hx
      · rw [if_neg hk] at hx; cases hx

lemma kp_limit_candidates_some {J k : ℝ} (hk : 0 < k)
    (hw : 0 < Real.sqrt (k / J)) :
    kp_limit_candidates J (some k) = [Real.sqrt (k / J)] := by
  simp only [kp_limit_candidates, if_pos hk, if_pos hw]

lemma mem_kd_limit_candidates {J zeta_des x : ℝ} {kd_max : Option ℝ}
    (hx : x ∈ kd_limit_candidates J zeta_des kd_max) :
    ∃ k, kd_max = some k ∧ 0 < k ∧ 0 < zeta_des ∧
      x = k / (2 * zeta_des * J) := by
  match kd_max with
  | none => cases hx
  | some k =>
      simp only [kd_limit_candidates] at hx
      by_cases hk : 0 < k ∧ 0 < zeta_des
      · rw [if_pos hk] at hx
        by_cases hw : 0 < k / (2 * zeta_des * J)
        · rw [if_pos hw] at hx
          exact ⟨k, rfl, hk.1, hk.2, (List.mem_singleton.mp hx)⟩
        · rw [if_neg hw] at hx; cases hx
      · rw [if_neg hk] at hx; cases hx

lemma kd_limit_candidates_some {J zeta_des k : ℝ} (hk : 0 < k)
    (hz : 0 < zeta_des) (hw : 0 < k / (2 * zeta_des * J)) :
    kd_limit_candidates J zeta_des (some k) = [k / (2 * zeta_des * J)] := by
  simp only [kd_limit_candidates, if_pos (And.intro hk hz), if_pos hw]

/-- Every candidate the code appends beyond `omega_n_des` is strictly
positive: both append sites are guarded by a `> 0` test. -/
lemma appended_candidates_pos {J zeta_des x : ℝ} {kp_max kd_max : Option ℝ}
    (hx : x ∈ kp_limit_candidates J kp_max ++
      kd_limit_candidates J zeta_des kd_max) : 0 < x := by
  rcases List.mem_append.mp hx with h | h
  · match kp_max with
    | none => cases h
    | some k =>
        simp only [kp_limit_candidates] at h
        by_cases hk : 0 < k
        · rw [if_pos hk] at h
          by_cases hw : 0 < Real.sqrt (k / J)
          · rw [if_pos hw] at h; rw [List.mem_singleton.mp h]; exact hw
          · rw [if_neg hw] at h; cases h
        · rw [if_neg hk] at h; cases h
  · match kd_max with
    | none => cases h
    | some k =>
        simp only [kd_limit_candidates] at h
        by_cases hk : 0 < k ∧ 0 < zeta_des
        · rw [if_pos hk] at h
          by_cases hw : 0 < k / (2 * zeta_des * J)
          · rw [if_pos hw] at h; rw [List.mem_singleton.mp h]; exact hw
          · rw [if_neg hw] at h; cases h
        · rw [if_neg hk] at h; cases h

/-! ### Basic facts about `omega_n_actual` and the derived quantities -/

lemma omega_n_actual_le_des (J f_n_des zeta_des : ℝ)
    (kp_max kd_max : Option ℝ) :
    omega_n_actual J f_n_des zeta_des kp_max kd_max ≤ omega_n_des f_n_des :=
  listMin_le_base _ _

lemma omega_n_actual_nonneg {f_n_des : ℝ} (J zeta_des : ℝ)
    (kp_max kd_max : Option ℝ) (hf : 0 ≤ f_n_des) :
    0 ≤ omega_n_actual J f_n_des zeta_des kp_max kd_max := by
  apply le_listMin
  · have : (0:ℝ) ≤ 2 * Real.pi := by positivity
    exact mul_nonneg this hf
  · intro x hx
    exact (appended_candidates_pos hx).le

lemma omega_n_actual_pos {f_n_des : ℝ} (J zeta_des : ℝ)
    (kp_max kd_max : Option ℝ) (hf : 0 < f_n_des) :
    0 < omega_n_actual J f_n_des zeta_des kp_max kd_max := by
  apply lt_listMin
  · have h2 : (0:ℝ) < 2 * Real.pi := by positivity
    exact mul_pos h2 hf
  · intro x hx
    exact appended_candidates_pos hx

/-- When `omega_n_actual > 0` and `J > 0`, the defensive recomputation
of the damping ratio returns exactly `zeta_des`:
`kd_actual / (2 * sqrt(J * kp_actual)) = zeta_des`. -/
lemma zeta_actual_eq_des {J f_n_des zeta_des : ℝ} {kp_max kd_max : Option ℝ}
    (hJ : 0 < J) (hw : 0 < omega_n_actual J f_n_des zeta_des kp_max kd_max) :
    zeta_actual J f_n_des zeta_des kp_max kd_max = zeta_des := by
  set w := omega_n_actual J f_n_des zeta_des kp_max kd_max with hwdef
  have hkp : 0 < kp_actual J f_n_des zeta_des kp_max kd_max := by
    rw [kp_actual, ← hwdef]; positivity
  rw [zeta_actual, if_pos hkp, kd_actual, kp_actual, ← hwdef]
  have hsq : J * (J * w ^ 2) = (J * w) ^ 2 := by ring
  rw [hsq, Real.sqrt_sq (by positivity)]
  field_simp
  ring

/-- When `omega_n_actual = 0`, `kp_actual = 0`, so the `kp_actual > 0`
branch is not taken and `zeta_actual` is the initial `0.0`. -/
lemma zeta_actual_of_omega_eq_zero {J f_n_des zeta_des : ℝ}
    {kp_max kd_max : Option ℝ}
    (hw : omega_n_actual J f_n_des zeta_des kp_max kd_max = 0) :
    zeta_actual J f_n_des zeta_des kp_max kd_max = 0 := by
  have hkp : kp_actual J f_n_des zeta_des kp_max kd_max = 0 := by
    rw [kp_actual, hw]; ring
  rw [zeta_actual, if_neg (by rw [hkp]; exact lt_irrefl 0)]

/-! ### Projections of `designCore` -/

@[simp] lemma designCore_omega_n_des (J f_n_des zeta_des : ℝ)
    (kp_max kd_max : Option ℝ) :
    (designCore J f_n_des zeta_des kp_max kd_max).omega_n_des =
      omega_n_des f_n_des := rfl

@[simp] lemma designCore_kp_des (J f_n_des zeta_des : ℝ)
    (kp_max kd_max : Option ℝ) :
    (designCore J f_n_des zeta_des kp_max kd_max).kp_des = kp_des J f_n_des := rfl

@[simp] lemma designCore_kd_des (J f_n_des zeta_des : ℝ)
    (kp_max kd_max : Option ℝ) :
    (designCore J f_n_des zeta_des kp_max kd_max).kd_des =
      kd_des J zeta_des f_n_des := rfl

@[simp] lemma designCore_kp_actual (J f_n_des zeta_des : ℝ)
    (kp_max kd_max : Option ℝ) :
    (designCore J f_n_des zeta_des kp_max kd_max).kp_actual =
      kp_actual J f_n_des zeta_des kp_max kd_max := rfl

@[simp] lemma designCore_kd_actual (J f_n_des zeta_des : ℝ)
    (kp_max kd_max : Option ℝ) :
    (designCore J f_n_des zeta_des kp_max kd_max).kd_actual =
      kd_actual J f_n_des zeta_des kp_max kd_max := rfl

@[simp] lemma designCore_omega_n_actual (J f_n_des zeta_des : ℝ)
    (kp_max kd_max : Option ℝ) :
    (designCore J f_n_des zeta_des kp_max kd_max).omega_n_actual =
      omega_n_actual J f_n_des zeta_des kp_max kd_max := rfl

@[simp] lemma designCore_f_n_actual (J f_n_des zeta_des : ℝ)
    (kp_max kd_max : Option ℝ) :
    (designCore J f_n_des zeta_des kp_max kd_max).f_n_actual =
      f_n_actual J f_n_des zeta_des kp_max kd_max := rfl

@[simp] lemma designCore_zeta_actual (J f_n_des zeta_des : ℝ)
    (kp_max kd_max : Option ℝ) :
    (designCore J f_n_des zeta_des kp_max kd_max).zeta_actual =
      zeta_actual J f_n_des zeta_des kp_max kd_max := rfl

@[simp] lemma designCore_t_r_actual (J f_n_des zeta_des : ℝ)
    (kp_max kd_max : Option ℝ) :
    (designCore J f_n_des zeta_des kp_max kd_max).t_r_actual =
      t_r_actual J f_n_des zeta_des kp_max kd_max := rfl

@[simp] lemma designCore_t_s_actual (J f_n_des zeta_des : ℝ)
    (kp_max kd_max : Option ℝ) :
    (designCore J f_n_des zeta_des kp_max kd_max).t_s_actual =
      t_s_actual J f_n_des zeta_des kp_max kd_max := rfl

/-! ### Bound activity -/

/-- The Kp bound is active: it contributed a candidate frequency lying
strictly below the desired angular frequency. -/
def kpBoundActive (J f_n_des : ℝ) (kp_max : Option ℝ) : Prop :=
  ∃ x ∈ kp_limit_candidates J kp_max, x < omega_n_des f_n_des

/-- The Kd bound is active: it contributed a candidate frequency lying
strictly below the desired angular frequency. -/
def kdBoundActive (J f_n_des zeta_des : ℝ) (kd_max : Option ℝ) : Prop :=
  ∃ x ∈ kd_limit_candidates J zeta_des kd_max, x < omega_n_des f_n_des

/-! ### Claim theorems -/

/-- Claim C1: for every request with `J ≤ 0`, `design_pd_with_limits`
fails (the error path is taken and no `PDDesignResult` is produced),
regardless of `f_n_des`, `zeta_des`, `kp_max` and `kd_max`. -/
theorem c1_invalid_inertia_fails (J f_n_des zeta_des : ℝ)
    (kp_max kd_max : Option ℝ) (hJ : J ≤ 0) :
    design_pd_with_limits J f_n_des zeta_des kp_max kd_max = none := by
  rw [design_pd_with_limits, if_pos hJ]

/-- Witness for C1 at `J = -1`. -/
theorem c1_invalid_inertia_fails_witness :
    (-1 : ℝ) ≤ 0 ∧
      design_pd_with_limits (-1) 5 0.5 (some 500) (some 5) = none :=
  ⟨by norm_num,
    c1_invalid_inertia_fails (-1) 5 0.5 (some 500) (some 5) (by norm_num)⟩

/-- Claim C3: whenever `J > 0` and the produced `omega_n_actual` is
positive, the recomputed damping ratio equals the requested one exactly:
`zeta_actual = kd_actual / (2 * sqrt(J * kp_actual)) = zeta_des`;
clamping never changes the damping ratio. -/
theorem c3_damping_ratio_preserved (J f_n_des zeta_des : ℝ)
    (kp_max kd_max : Option ℝ) (hJ : 0 < J)
    (hw : 0 < (designCore J f_n_des zeta_des kp_max kd_max).omega_n_actual) :
    (designCore J f_n_des zeta_des kp_max kd_max).zeta_actual = zeta_des ∧
    (designCore J f_n_des zeta_des kp_max kd_max).zeta_actual =
      (designCore J f_n_des zeta_des kp_max kd_max).kd_actual /
        (2 * Real.sqrt
          (J * (designCore J f_n_des zeta_des kp_max kd_max).kp_actual)) := by
  have hw' : 0 < omega_n_actual J f_n_des zeta_des kp_max kd_max := hw
  have hkp : 0 < kp_actual J f_n_des zeta_des kp_max kd_max := by
    rw [kp_actual]; exact mul_pos hJ (pow_pos hw' 2)
  refine ⟨zeta_actual_eq_des hJ hw', ?_⟩
  simp only [designCore_zeta_actual, designCore_kd_actual, designCore_kp_actual]
  rw [zeta_actual, if_pos hkp]

/-- Witness for C3 at `J = 1`, `f_n_des = 1`, `zeta_des = 1`, no
bounds, where `omega_n_actual = 2π > 0`. -/
theorem c3_damping_ratio_preserved_witness :
    0 < (1 : ℝ) ∧ 0 < (designCore 1 1 1 none none).omega_n_actual ∧
      (designCore 1 1 1 none none).zeta_actual = 1 := by
  have hw : 0 < (designCore 1 1 1 none none).omega_n_actual := by
    show 0 < omega_n_des 1
    rw [omega_n_des]
    positivity
  exact ⟨by norm_num, hw,
    (c3_damping_ratio_preserved 1 1 1 none none (by norm_num) hw).1⟩

/-- Claim C4: for `J > 0`, clamping only ever lowers the angular
frequency (`omega_n_actual ≤ omega_n_des`), with equality exactly when
neither the Kp bound nor the Kd bound contributed an admissible
frequency below `omega_n_des`. -/
theorem c4_frequency_monotone (J f_n_des zeta_des : ℝ)
    (kp_max kd_max : Option ℝ) (hJ : 0 < J) :
    (designCore J f_n_des zeta_des kp_max kd_max).omega_n_actual ≤
      (designCore J f_n_des zeta_des kp_max kd_max).omega_n_des ∧
    ((designCore J f_n_des zeta_des kp_max kd_max).omega_n_actual =
        (designCore J f_n_des zeta_des kp_max kd_max).omega_n_des ↔
      ¬ kpBoundActive J f_n_des kp_max ∧
        ¬ kdBoundActive J f_n_des zeta_des kd_max) := by
  simp only [designCore_omega_n_actual, designCore_omega_n_des]
  refine ⟨omega_n_actual_le_des J f_n_des zeta_des kp_max kd_max, ?_⟩
  rw [omega_n_actual, listMin_eq_base_iff]
  simp only [kpBoundActive, kdBoundActive, not_exists, not_and, not_lt]
  constructor
  · intro h
    exact ⟨fun x hx => h x (List.mem_append_left _ hx),
      fun x hx => h x (List.mem_append_right _ hx)⟩
  · rintro ⟨h1, h2⟩ x hx
    rcases List.mem_append.mp hx with h | h
    · exact h1 x h
    · exact h2 x h

/-- Witness for C4 at `J = 1`, `f_n_des = 1`, `zeta_des = 1`, no
bounds. -/
theorem c4_frequency_monotone_witness :
    0 < (1 : ℝ) ∧
      ((designCore 1 1 1 none none).omega_n_actual ≤
        (designCore 1 1 1 none none).omega_n_des ∧
      ((designCore 1 1 1 none none).omega_n_actual =
          (designCore 1 1 1 none none).omega_n_des ↔
        ¬ kpBoundActive 1 1 none ∧ ¬ kdBoundActive 1 1 1 none)) :=
  ⟨by norm_num, c4_frequency_monotone 1 1 1 none none (by norm_num)⟩

/-- Claim C5: for `J > 0`, when each gain bound is absent, non-positive,
or large enough that its admissible frequency is at least `omega_n_des`
(`sqrt(kp_max/J) ≥ omega_n_des`; `kd_max/(2·zeta_des·J) ≥ omega_n_des`
when `zeta_des > 0`), the theoretical design passes through exactly:
`kp_actual = kp_des` and `kd_actual = kd_des`. -/
theorem c5_unconstrained_passthrough (J f_n_des zeta_des : ℝ)
    (kp_max kd_max : Option ℝ) (hJ : 0 < J)
    (hkp : ∀ k, kp_max = some k → 0 < k →
      omega_n_des f_n_des ≤ Real.sqrt (k / J))
    (hkd : ∀ k, kd_max = some k → 0 < k → 0 < zeta_des →
      omega_n_des f_n_des ≤ k / (2 * zeta_des * J)) :
    (designCore J f_n_des zeta_des kp_max kd_max).kp_actual =
      (designCore J f_n_des zeta_des kp_max kd_max).kp_des ∧
    (designCore J f_n_des zeta_des kp_max kd_max).kd_actual =
      (designCore J f_n_des zeta_des kp_max kd_max).kd_des := by
  have hw : omega_n_actual J f_n_des zeta_des kp_max kd_max =
      omega_n_des f_n_des := by
    rw [omega_n_actual, listMin_eq_base_iff]
    intro x hx
    rcases List.mem_append.mp hx with h | h
    · obtain ⟨k, hk, hkpos, hxe⟩ := mem_kp_limit_candidates h
      rw [hxe]
      exact hkp k hk hkpos
    · obtain ⟨k, hk, hkpos, hz, hxe⟩ := mem_kd_limit_candidates h
      rw [hxe]
      exact hkd k hk hkpos hz
  constructor
  · simp only [designCore_kp_actual, designCore_kp_des]
    rw [kp_actual, hw, kp_des]
  · simp only [designCore_kd_actual, designCore_kd_des]
    rw [kd_actual, hw, kd_des]

/-- Witness for C5 at `J = 1`, `f_n_des = 1`, `zeta_des = 1`,
`kp_max = 100` (whose admissible frequency `sqrt 100 = 10` exceeds
`2π`), `kd_max` absent. -/
theorem c5_unconstrained_passthrough_witness :
    0 < (1 : ℝ) ∧
      (designCore 1 1 1 (some 100) none).kp_actual =
        (designCore 1 1 1 (some 100) none).kp_des ∧
      (designCore 1 1 1 (some 100) none).kd_actual =
        (designCore 1 1 1 (some 100) none).kd_des := by
  have hkp : ∀ k, (some (100:ℝ)) = some k → 0 < k →
      omega_n_des 1 ≤ Real.sqrt (k / 1) := by
    intro k hk _
    have hk' : k = 100 := by injection hk with h; exact h.symm
    subst hk'
    have h100 : (100 : ℝ) / 1 = 10 ^ 2 := by norm_num
    rw [h100, Real.sqrt_sq (by norm_num), omega_n_des]
    nlinarith [Real.pi_lt_d2]
  have hkd : ∀ k, (none : Option ℝ) = some k → 0 < k → 0 < (1:ℝ) →
      omega_n_des 1 ≤ k / (2 * 1 * 1) := by
    intro k hk
    exact absurd hk (by simp)
  exact ⟨by norm_num,
    c5_unconstrained_passthrough 1 1 1 (some 100) none (by norm_num) hkp hkd⟩

/-- Claim C6: for `J > 0` and `zeta_des = 0`, the Kd bound contributes
no candidate whatever `kd_max` is: `omega_n_actual` is the same for any
two values of `kd_max`, equals the minimum over `omega_n_des` and the
Kp candidates alone, and `kd_des = kd_actual = 0`. -/
theorem c6_zero_damping_ignores_kd_bound (J f_n_des : ℝ)
    (kp_max kd_max kd_max' : Option ℝ) (hJ : 0 < J) :
    (designCore J f_n_des 0 kp_max kd_max).omega_n_actual =
      (designCore J f_n_des 0 kp_max kd_max').omega_n_actual ∧
    (designCore J f_n_des 0 kp_max kd_max).omega_n_actual =
      listMin (omega_n_des f_n_des) (kp_limit_candidates J kp_max) ∧
    (designCore J f_n_des 0 kp_max kd_max).kd_des = 0 ∧
    (designCore J f_n_des 0 kp_max kd_max).kd_actual = 0 := by
  have hkd : ∀ d : Option ℝ, kd_limit_candidates J 0 d = [] := by
    intro d
    match d with
    | none => rfl
    | some k =>
        simp only [kd_limit_candidates]
        rw [if_neg (fun h => lt_irrefl (0:ℝ) h.2)]
  have hw : ∀ d : Option ℝ, omega_n_actual J f_n_des 0 kp_max d =
      listMin (omega_n_des f_n_des) (kp_limit_candidates J kp_max) := by
    intro d
    rw [omega_n_actual, hkd d, List.append_nil]
  refine ⟨?_, ?_, ?_, ?_⟩
  · simp only [designCore_omega_n_actual]
    rw [hw kd_max, hw kd_max']
  · simp only [designCore_omega_n_actual]
    exact hw kd_max
  · simp only [designCore_kd_des]
    rw [kd_des]; ring
  · simp only [designCore_kd_actual]
    rw [kd_actual]; ring

/-- Witness for C6 at `J = 1`, `f_n_des = 1`, `kp_max` absent, with
`kd_max = 5` versus `kd_max` absent. -/
theorem c6_zero_damping_ignores_kd_bound_witness :
    0 < (1 : ℝ) ∧
      (designCore 1 1 0 none (some 5)).omega_n_actual =
        (designCore 1 1 0 none none).omega_n_actual ∧
      (designCore 1 1 0 none (some 5)).kd_actual = 0 :=
  ⟨by norm_num,
    (c6_zero_damping_ignores_kd_bound 1 1 none (some 5) none (by norm_num)).1,
    (c6_zero_damping_ignores_kd_bound 1 1 none (some 5) none (by norm_num)).2.2.2⟩

/-- Claim C7: for `J > 0`, the time metrics are guarded: when
`omega_n_actual = 0` both metrics are the unbounded sentinel; when
`zeta_actual = 0` the settling time is the sentinel; and a non-sentinel
value is only ever produced under the corresponding positivity guard,
in which case it is exactly the guarded quotient. -/
theorem c7_time_metrics_guarded (J f_n_des zeta_des : ℝ)
    (kp_max kd_max : Option ℝ) (hJ : 0 < J) :
    ((designCore J f_n_des zeta_des kp_max kd_max).omega_n_actual = 0 →
      (designCore J f_n_des zeta_des kp_max kd_max).t_r_actual = none ∧
      (designCore J f_n_des zeta_des kp_max kd_max).t_s_actual = none) ∧
    ((designCore J f_n_des zeta_des kp_max kd_max).zeta_actual = 0 →
      (designCore J f_n_des zeta_des kp_max kd_max).t_s_actual = none) ∧
    (∀ x, (designCore J f_n_des zeta_des kp_max kd_max).t_r_actual = some x →
      0 < (designCore J f_n_des zeta_des kp_max kd_max).omega_n_actual ∧
      x = 1.8 / (designCore J f_n_des zeta_des kp_max kd_max).omega_n_actual) ∧
    (∀ x, (designCore J f_n_des zeta_des kp_max kd_max).t_s_actual = some x →
      0 < (designCore J f_n_des zeta_des kp_max kd_max).omega_n_actual ∧
      0 < (designCore J f_n_des zeta_des kp_max kd_max).zeta_actual ∧
      x = 4.0 / ((designCore J f_n_des zeta_des kp_max kd_max).zeta_actual *
        (designCore J f_n_des zeta_des kp_max kd_max).omega_n_actual)) := by
  simp only [designCore_omega_n_actual, designCore_zeta_actual,
    designCore_t_r_actual, designCore_t_s_actual]
  refine ⟨?_, ?_, ?_, ?_⟩
  · intro h0
    constructor
    · rw [t_r_actual, if_neg (by rw [h0]; exact lt_irrefl 0)]
    · rw [t_s_actual, if_neg (by rw [h0]; exact lt_irrefl 0)]
  · intro hz
    rw [t_s_actual]
    by_cases hw : 0 < omega_n_actual J f_n_des zeta_des kp_max kd_max
    · rw [if_pos hw, if_neg (by rw [hz]; exact lt_irrefl 0)]
    · rw [if_neg hw]
  · intro x hx
    rw [t_r_actual] at hx
    by_cases hw : 0 < omega_n_actual J f_n_des zeta_des kp_max kd_max
    · rw [if_pos hw] at hx
      exact ⟨hw, (Option.some_inj.mp hx).symm⟩
    · rw [if_neg hw] at hx
      cases hx
  · intro x hx
    rw [t_s_actual] at hx
    by_cases hw : 0 < omega_n_actual J f_n_des zeta_des kp_max kd_max
    · rw [if_pos hw] at hx
      by_cases hz : 0 < zeta_actual J f_n_des zeta_des kp_max kd_max
      · rw [if_pos hz] at hx
        exact ⟨hw, hz, (Option.some_inj.mp hx).symm⟩
      · rw [if_neg hz] at hx
        cases hx
    · rw [if_neg hw] at hx
      cases hx

/-- Witness for C7 at `J = 1`, `f_n_des = 0`, `zeta_des = 0`, no
bounds, where `omega_n_actual = 0` and both metrics are the sentinel. -/
theorem c7_time_metrics_guarded_witness :
    0 < (1 : ℝ) ∧
      (designCore 1 0 0 none none).t_r_actual = none ∧
      (designCore 1 0 0 none none).t_s_actual = none := by
  have h0 : (designCore 1 0 0 none none).omega_n_actual = 0 := by
    show omega_n_des 0 = 0
    rw [omega_n_des]; ring
  exact ⟨by norm_num,
    (c7_time_metrics_guarded 1 0 0 none none (by norm_num)).1 h0⟩

/-- Counterexample to claim C2 as stated: the request `J = 1`,
`f_n_des = -1`, `zeta_des = 0`, `kp_max = 1`, `kd_max` absent is valid
in the claim's sense (`J > 0`) and has a finite positive `kp_max`, yet
`kp_actual = 4π² > 1 = kp_max`: the negative desired frequency
`omega_n_des = -2π` wins the minimum and is then squared. -/
theorem c2_bound_respect_counterexample :
    0 < (1 : ℝ) ∧ 0 < (1 : ℝ) ∧
      1 < (designCore 1 (-1) 0 (some 1) none).kp_actual := by
  refine ⟨by norm_num, by norm_num, ?_⟩
  have hsq1 : Real.sqrt ((1:ℝ) / 1) = 1 := by
    rw [show (1:ℝ)/1 = 1 by norm_num, Real.sqrt_one]
  have hkp : kp_limit_candidates 1 (some 1) = [Real.sqrt ((1:ℝ)/1)] :=
    kp_limit_candidates_some (by norm_num) (by rw [hsq1]; norm_num)
  have hw : omega_n_actual 1 (-1) 0 (some 1) none = omega_n_des (-1) := by
    rw [omega_n_actual, hkp]
    show min (Real.sqrt ((1:ℝ)/1)) (listMin (omega_n_des (-1)) []) =
      omega_n_des (-1)
    rw [listMin_nil, hsq1, min_eq_right]
    rw [omega_n_des]
    nlinarith [Real.pi_pos]
  simp only [designCore_kp_actual]
  rw [kp_actual, hw, omega_n_des]
  nlinarith [Real.pi_gt_three]

/-- Claim C2 amended: the bound-respect property additionally needs a
non-negative desired frequency (`f_n_des ≥ 0`); then whenever a bound
is present and positive, the corresponding actual gain respects it
(exactly, in real arithmetic). -/
theorem c2_bound_respect_amended (J f_n_des zeta_des : ℝ)
    (kp_max kd_max : Option ℝ) (hJ : 0 < J) (hf : 0 ≤ f_n_des) :
    (∀ k, kp_max = some k → 0 < k →
      (designCore J f_n_des zeta_des kp_max kd_max).kp_actual ≤ k) ∧
    (∀ k, kd_max = some k → 0 < k →
      (designCore J f_n_des zeta_des kp_max kd_max).kd_actual ≤ k) := by
  have hw0 : 0 ≤ omega_n_actual J f_n_des zeta_des kp_max kd_max :=
    omega_n_actual_nonneg J zeta_des kp_max kd_max hf
  constructor
  · intro k hk hkpos
    simp only [designCore_kp_actual]
    have hdiv : 0 < k / J := div_pos hkpos hJ
    have hmem : Real.sqrt (k / J) ∈ kp_limit_candidates J kp_max := by
      rw [hk, kp_limit_candidates_some hkpos (Real.sqrt_pos.mpr hdiv)]
      exact List.mem_singleton.mpr rfl
    have hle : omega_n_actual J f_n_des zeta_des kp_max kd_max ≤
        Real.sqrt (k / J) :=
      listMin_le_mem _ (List.mem_append_left _ hmem)
    have hsq : (omega_n_actual J f_n_des zeta_des kp_max kd_max) ^ 2 ≤ k / J := by
      calc (omega_n_actual J f_n_des zeta_des kp_max kd_max) ^ 2
          ≤ (Real.sqrt (k / J)) ^ 2 := pow_le_pow_left₀ hw0 hle 2
      _ = k / J := Real.sq_sqrt hdiv.le
    rw [kp_actual]
    calc J * (omega_n_actual J f_n_des zeta_des kp_max kd_max) ^ 2
        ≤ J * (k / J) := mul_le_mul_of_nonneg_left hsq hJ.le
    _ = k := by field_simp
  · intro k hk hkpos
    simp only [designCore_kd_actual]
    rw [kd_actual]
    by_cases hz : 0 < zeta_des
    · have h2zJ : 0 < 2 * zeta_des * J := by positivity
      have hlim : 0 < k / (2 * zeta_des * J) := div_pos hkpos h2zJ
      have hmem : k / (2 * zeta_des * J) ∈
          kd_limit_candidates J zeta_des kd_max := by
        rw [hk, kd_limit_candidates_some hkpos hz hlim]
        exact List.mem_singleton.mpr rfl
      have hle : omega_n_actual J f_n_des zeta_des kp_max kd_max ≤
          k / (2 * zeta_des * J) :=
        listMin_le_mem _ (List.mem_append_right _ hmem)
      have h3 : 2 * zeta_des * J * (k / (2 * zeta_des * J)) = k := by
        field_simp
      have h4 := mul_le_mul_of_nonneg_left hle h2zJ.le
      rw [h3] at h4
      exact h4
    · have hz' : zeta_des ≤ 0 := not_lt.mp hz
      have h5 : 0 ≤ -(2 * zeta_des * J) *
          omega_n_actual J f_n_des zeta_des kp_max kd_max :=
        mul_nonneg (by nlinarith) hw0
      nlinarith [h5, hkpos]

/-- Witness for the amended C2 at `J = 1`, `f_n_des = 1`,
`zeta_des = 1`, `kp_max = 1`, `kd_max = 1`. -/
theorem c2_bound_respect_amended_witness :
    0 < (1 : ℝ) ∧ (0 : ℝ) ≤ 1 ∧
      (designCore 1 1 1 (some 1) (some 1)).kp_actual ≤ 1 ∧
      (designCore 1 1 1 (some 1) (some 1)).kd_actual ≤ 1 :=
  ⟨by norm_num, by norm_num,
    (c2_bound_respect_amended 1 1 1 (some 1) (some 1) (by norm_num)
      (by norm_num)).1 1 rfl (by norm_num),
    (c2_bound_respect_amended 1 1 1 (some 1) (some 1) (by norm_num)
      (by norm_num)).2 1 rfl (by norm_num)⟩

/-- In the C9 counterexample request, the negative desired frequency
`omega_n_des (-10) = -20π` wins the minimum over both default-bound
candidates, so no clamping happens. -/
lemma c9cx_omega_n_actual :
    omega_n_actual 1 (-10) 1 (some 500) (some 5) = omega_n_des (-10) := by
  have hkp : kp_limit_candidates 1 (some 500) = [Real.sqrt ((500:ℝ) / 1)] :=
    kp_limit_candidates_some (by norm_num) (Real.sqrt_pos.mpr (by norm_num))
  have hkd : kd_limit_candidates 1 1 (some 5) = [(5:ℝ) / (2 * 1 * 1)] :=
    kd_limit_candidates_some (by norm_num) (by norm_num) (by norm_num)
  rw [omega_n_actual, hkp, hkd]
  rw [show ([Real.sqrt ((500:ℝ) / 1)] ++ [(5:ℝ) / (2 * 1 * 1)]) =
      [Real.sqrt ((500:ℝ) / 1), (5:ℝ) / (2 * 1 * 1)] from rfl]
  rw [listMin_cons, listMin_cons, listMin_nil]
  have hneg : omega_n_des (-10) ≤ 0 := by
    rw [omega_n_des]
    nlinarith [Real.pi_pos]
  rw [min_eq_right (le_trans hneg (by norm_num :
    (0:ℝ) ≤ (5:ℝ) / (2 * 1 * 1)))]
  rw [min_eq_right (le_trans hneg (Real.sqrt_nonneg _))]

/-- Counterexample to claim C9 as stated: at `J = 1`, `f_n_des = -10`,
`zeta_des = 1` with the default bounds, the theoretical gain exceeds
the default Kp bound (`kp_des = 400π² > 500`) and yet nothing is
clamped: `kp_actual = kp_des` exactly, because the negative
`omega_n_des` wins the minimum. -/
theorem c9_defaults_counterexample :
    design_pd_with_limits_defaults 1 (-10) 1 =
      some (designCore 1 (-10) 1 (some 500) (some 5)) ∧
    500 < (designCore 1 (-10) 1 (some 500) (some 5)).kp_des ∧
    (designCore 1 (-10) 1 (some 500) (some 5)).kp_actual =
      (designCore 1 (-10) 1 (some 500) (some 5)).kp_des := by
  refine ⟨?_, ?_, ?_⟩
  · rw [design_pd_with_limits_defaults, design_pd_with_limits,
      if_neg (by norm_num)]
  · simp only [designCore_kp_des]
    rw [kp_des, omega_n_des]
    nlinarith [Real.pi_gt_three]
  · simp only [designCore_kp_actual, designCore_kp_des]
    rw [kp_actual, c9cx_omega_n_actual, kp_des]

/-- Claim C9 amended: omitting the bound arguments does not mean
"unbounded" — the Python defaults are `kp_max = 500.0`,
`kd_max = 5.0`.  A call with the defaults is literally a call with
those bounds; for a request with `f_n_des ≥ 0` whose theoretical gain
exceeds the default bound (`kp_des > 500` here) the default call
silently clamps (`kp_actual < kp_des`), while passing `None` for both
bounds passes the theoretical design through.  (For `f_n_des < 0` the
negative `omega_n_des` wins the minimum and no clamping occurs, per
the counterexample.) -/
theorem c9_defaults_silently_clamp (J f_n_des zeta_des : ℝ)
    (hJ : 0 < J) (hf : 0 ≤ f_n_des) (hbig : 500 < kp_des J f_n_des) :
    design_pd_with_limits_defaults J f_n_des zeta_des =
      design_pd_with_limits J f_n_des zeta_des (some 500) (some 5) ∧
    (designCore J f_n_des zeta_des (some 500) (some 5)).kp_actual <
      (designCore J f_n_des zeta_des (some 500) (some 5)).kp_des ∧
    (designCore J f_n_des zeta_des none none).kp_actual =
      (designCore J f_n_des zeta_des none none).kp_des := by
  have hf' : 0 < f_n_des := by
    rcases lt_or_eq_of_le hf with h | h
    · exact h
    · exfalso
      have h0 : 2 * Real.pi * f_n_des = 0 := by rw [← h]; ring
      rw [kp_des, omega_n_des, h0] at hbig
      norm_num at hbig
  refine ⟨rfl, ?_, ?_⟩
  · simp only [designCore_kp_actual, designCore_kp_des]
    have hwpos : 0 < omega_n_actual J f_n_des zeta_des (some 500) (some 5) :=
      omega_n_actual_pos J zeta_des (some 500) (some 5) hf'
    have hdes : 0 < omega_n_des f_n_des := by
      rw [omega_n_des]; positivity
    have hbig' : 500 / J < (omega_n_des f_n_des) ^ 2 := by
      rw [div_lt_iff₀ hJ]
      rw [kp_des] at hbig
      nlinarith [hbig]
    have hs : Real.sqrt (500 / J) < omega_n_des f_n_des := by
      calc Real.sqrt (500 / J) < Real.sqrt ((omega_n_des f_n_des) ^ 2) :=
            Real.sqrt_lt_sqrt (by positivity) hbig'
      _ = omega_n_des f_n_des := Real.sqrt_sq hdes.le
    have hdiv : 0 < (500:ℝ) / J := by positivity
    have hmem : Real.sqrt ((500:ℝ) / J) ∈ kp_limit_candidates J (some 500) := by
      rw [kp_limit_candidates_some (by norm_num) (Real.sqrt_pos.mpr hdiv)]
      exact List.mem_singleton.mpr rfl
    have hle : omega_n_actual J f_n_des zeta_des (some 500) (some 5) ≤
        Real.sqrt (500 / J) :=
      listMin_le_mem _ (List.mem_append_left _ hmem)
    have hlt : omega_n_actual J f_n_des zeta_des (some 500) (some 5) <
        omega_n_des f_n_des := lt_of_le_of_lt hle hs
    rw [kp_actual, kp_des]
    have h2 : (omega_n_actual J f_n_des zeta_des (some 500) (some 5)) ^ 2 <
        (omega_n_des f_n_des) ^ 2 := by nlinarith [hwpos, hlt]
    exact (mul_lt_mul_left hJ).mpr h2
  · rfl

/-- Witness for the amended C9 at `J = 1`, `f_n_des = 10`,
`zeta_des = 1`, where `kp_des = 400π² > 500`. -/
theorem c9_defaults_silently_clamp_witness :
    0 < (1 : ℝ) ∧ (0 : ℝ) ≤ 10 ∧ 500 < kp_des 1 10 ∧
      ((designCore 1 10 1 (some 500) (some 5)).kp_actual <
        (designCore 1 10 1 (some 500) (some 5)).kp_des ∧
      (designCore 1 10 1 none none).kp_actual =
        (designCore 1 10 1 none none).kp_des) := by
  have hbig : 500 < kp_des 1 10 := by
    rw [kp_des, omega_n_des]
    nlinarith [Real.pi_gt_three]
  have h := c9_defaults_silently_clamp 1 10 1 (by norm_num) (by norm_num) hbig
  exact ⟨by norm_num, by norm_num, hbig, h.2.1, h.2.2⟩

/-- Claim C10: for `J > 0`, `f_n_des > 0` and `zeta_des > 0`, every
candidate frequency is strictly positive, hence all actual quantities
are strictly positive and both time metrics are finite (non-sentinel). -/
theorem c10_positive_inputs_finite_metrics (J f_n_des zeta_des : ℝ)
    (kp_max kd_max : Option ℝ) (hJ : 0 < J) (hf : 0 < f_n_des)
    (hz : 0 < zeta_des) :
    (∀ x ∈ omega_n_limits J f_n_des zeta_des kp_max kd_max, 0 < x) ∧
    0 < (designCore J f_n_des zeta_des kp_max kd_max).omega_n_actual ∧
    0 < (designCore J f_n_des zeta_des kp_max kd_max).kp_actual ∧
    0 < (designCore J f_n_des zeta_des kp_max kd_max).kd_actual ∧
    0 < (designCore J f_n_des zeta_des kp_max kd_max).zeta_actual ∧
    (∃ x, (designCore J f_n_des zeta_des kp_max kd_max).t_r_actual = some x) ∧
    (∃ x, (designCore J f_n_des zeta_des kp_max kd_max).t_s_actual = some x) := by
  simp only [designCore_omega_n_actual, designCore_kp_actual,
    designCore_kd_actual, designCore_zeta_actual, designCore_t_r_actual,
    designCore_t_s_actual]
  have hdes : 0 < omega_n_des f_n_des := by
    rw [omega_n_des]; positivity
  have hwpos : 0 < omega_n_actual J f_n_des zeta_des kp_max kd_max :=
    omega_n_actual_pos J zeta_des kp_max kd_max hf
  have hzeta : 0 < zeta_actual J f_n_des zeta_des kp_max kd_max := by
    rw [zeta_actual_eq_des hJ hwpos]; exact hz
  refine ⟨?_, hwpos, ?_, ?_, hzeta, ?_, ?_⟩
  · intro x hx
    rcases List.mem_cons.mp hx with h | h
    · rw [h]; exact hdes
    · exact appended_candidates_pos h
  · rw [kp_actual]
    exact mul_pos hJ (pow_pos hwpos 2)
  · rw [kd_actual]
    exact mul_pos (mul_pos (mul_pos two_pos hz) hJ) hwpos
  · exact ⟨_, by rw [t_r_actual, if_pos hwpos]⟩
  · exact ⟨_, by rw [t_s_actual, if_pos hwpos, if_pos hzeta]⟩

/-- Witness for C10 at `J = 1`, `f_n_des = 1`, `zeta_des = 1`,
`kp_max = 500`, `kd_max = 5`. -/
theorem c10_positive_inputs_finite_metrics_witness :
    0 < (1 : ℝ) ∧ 0 < (1 : ℝ) ∧ 0 < (1 : ℝ) ∧
      (0 < (designCore 1 1 1 (some 500) (some 5)).omega_n_actual ∧
        0 < (designCore 1 1 1 (some 500) (some 5)).zeta_actual ∧
        (∃ x, (designCore 1 1 1 (some 500) (some 5)).t_r_actual = some x) ∧
        (∃ x, (designCore 1 1 1 (some 500) (some 5)).t_s_actual = some x)) := by
  have h := c10_positive_inputs_finite_metrics 1 1 1 (some 500) (some 5)
    (by norm_num) (by norm_num) (by norm_num)
  exact ⟨by norm_num, by norm_num, by norm_num,
    h.2.1, h.2.2.2.2.1, h.2.2.2.2.2.1, h.2.2.2.2.2.2⟩

/-- In Scenario A the Kd limit `5 / (2 * 1.5 * 0.0231825)` wins the
minimum: it lies below both `omega_n_des = 24π` and the Kp limit
`sqrt(500 / 0.0231825)`. -/
lemma scenarioA_omega_n_actual :
    omega_n_actual 0.0231825 12 1.5 (some 500) (some 5) = 2000000 / 27819 := by
  have hkp : kp_limit_candidates 0.0231825 (some 500) =
      [Real.sqrt ((500:ℝ) / 0.0231825)] :=
    kp_limit_candidates_some (by norm_num)
      (Real.sqrt_pos.mpr (by norm_num))
  have hkd : kd_limit_candidates 0.0231825 1.5 (some 5) =
      [(5:ℝ) / (2 * 1.5 * 0.0231825)] :=
    kd_limit_candidates_some (by norm_num) (by norm_num) (by norm_num)
  rw [omega_n_actual, hkp, hkd]
  rw [show ([Real.sqrt ((500:ℝ) / 0.0231825)] ++
      [(5:ℝ) / (2 * 1.5 * 0.0231825)]) =
      [Real.sqrt ((500:ℝ) / 0.0231825), (5:ℝ) / (2 * 1.5 * 0.0231825)] from rfl]
  rw [listMin_cons, listMin_cons, listMin_nil]
  have h1 : min ((5:ℝ) / (2 * 1.5 * 0.0231825)) (omega_n_des 12) =
      (5:ℝ) / (2 * 1.5 * 0.0231825) := by
    apply min_eq_left
    rw [omega_n_des]
    nlinarith [Real.pi_gt_three]
  rw [h1]
  have h2 : min (Real.sqrt ((500:ℝ) / 0.0231825))
      ((5:ℝ) / (2 * 1.5 * 0.0231825)) = (5:ℝ) / (2 * 1.5 * 0.0231825) := by
    apply min_eq_right
    apply (Real.le_sqrt (by norm_num) (by norm_num)).mpr
    norm_num
  rw [h2]
  norm_num

/-- Claim C8, Scenario A: for `J = 0.0231825`, `f_n_des = 12`,
`zeta_des = 1.5`, `kp_max = 500`, `kd_max = 5`, the synthesis succeeds,
`omega_n_des ≈ 75.398`, `kp_des ≈ 131.8`, `kd_des ≈ 5.24`; the Kd
bound binds (`kd_des > 5`), and the clamped result has
`omega_n_actual = 2000000/27819 ≈ 71.9`, `kp_actual ≈ 119.8`,
`kd_actual = 5` (equal to `kd_max`), `f_n_actual ≈ 11.44`,
`zeta_actual = 1.5`, `t_r_actual ≈ 0.025 s`, `t_s_actual ≈ 0.0371 s`. -/
theorem c8_scenario_a :
    design_pd_with_limits 0.0231825 12 1.5 (some 500) (some 5) =
      some (designCore 0.0231825 12 1.5 (some 500) (some 5)) ∧
    |(designCore 0.0231825 12 1.5 (some 500) (some 5)).omega_n_des -
      75.398| < 0.001 ∧
    |(designCore 0.0231825 12 1.5 (some 500) (some 5)).kp_des -
      131.8| < 0.05 ∧
    |(designCore 0.0231825 12 1.5 (some 500) (some 5)).kd_des -
      5.24| < 0.005 ∧
    5 < (designCore 0.0231825 12 1.5 (some 500) (some 5)).kd_des ∧
    (designCore 0.0231825 12 1.5 (some 500) (some 5)).omega_n_actual =
      2000000 / 27819 ∧
    |(designCore 0.0231825 12 1.5 (some 500) (some 5)).omega_n_actual -
      71.9| < 0.01 ∧
    |(designCore 0.0231825 12 1.5 (some 500) (some 5)).kp_actual -
      119.8| < 0.05 ∧
    (designCore 0.0231825 12 1.5 (some 500) (some 5)).kd_actual = 5 ∧
    |(designCore 0.0231825 12 1.5 (some 500) (some 5)).f_n_actual -
      11.44| < 0.005 ∧
    (designCore 0.0231825 12 1.5 (some 500) (some 5)).zeta_actual = 1.5 ∧
    (∃ x, (designCore 0.0231825 12 1.5 (some 500) (some 5)).t_r_actual =
      some x ∧ |x - 0.025| < 0.0001) ∧
    (∃ x, (designCore 0.0231825 12 1.5 (some 500) (some 5)).t_s_actual =
      some x ∧ |x - 0.0371| < 0.0001) := by
  have homega := scenarioA_omega_n_actual
  have hwpos : 0 < omega_n_actual 0.0231825 12 1.5 (some 500) (some 5) := by
    rw [homega]; norm_num
  have hzeta : zeta_actual 0.0231825 12 1.5 (some 500) (some 5) = 1.5 :=
    zeta_actual_eq_des (by norm_num) hwpos
  simp only [designCore_omega_n_des, designCore_kp_des, designCore_kd_des,
    designCore_omega_n_actual, designCore_kp_actual, designCore_kd_actual,
    designCore_f_n_actual, designCore_zeta_actual, designCore_t_r_actual,
    designCore_t_s_actual]
  refine ⟨?_, ?_, ?_, ?_, ?_, homega, ?_, ?_, ?_, ?_, hzeta, ?_, ?_⟩
  · rw [design_pd_with_limits, if_neg (by norm_num)]
  · rw [omega_n_des, abs_lt]
    constructor <;> nlinarith [Real.pi_gt_d6, Real.pi_lt_d6]
  · rw [kp_des, omega_n_des, abs_lt]
    constructor <;> nlinarith [Real.pi_gt_d6, Real.pi_lt_d6]
  · rw [kd_des, omega_n_des, abs_lt]
    constructor <;> nlinarith [Real.pi_gt_d6, Real.pi_lt_d6]
  · rw [kd_des, omega_n_des]
    nlinarith [Real.pi_gt_three]
  · rw [homega, abs_lt]
    constructor <;> norm_num
  · rw [kp_actual, homega, abs_lt]
    constructor <;> norm_num
  · rw [kd_actual, homega]
    norm_num
  · rw [f_n_actual, homega, abs_lt]
    have h2pi : (0:ℝ) < 2 * Real.pi := by positivity
    constructor
    · have hq : (11.435:ℝ) < 2000000 / 27819 / (2 * Real.pi) := by
        rw [lt_div_iff₀ h2pi]
        nlinarith [Real.pi_lt_d6]
      linarith
    · have hq : (2000000:ℝ) / 27819 / (2 * Real.pi) < 11.445 := by
        rw [div_lt_iff₀ h2pi]
        nlinarith [Real.pi_gt_d6]
      linarith
  · refine ⟨1.8 / (2000000 / 27819), ?_, ?_⟩
    · rw [t_r_actual, if_pos hwpos, homega]
    · rw [abs_lt]
      constructor <;> norm_num
  · refine ⟨4.0 / (1.5 * (2000000 / 27819)), ?_, ?_⟩
    · rw [t_s_actual, if_pos hwpos, if_pos (by rw [hzeta]; norm_num),
        hzeta, homega]
    · rw [abs_lt]
      constructor <;> norm_num
